import Mathlib

/-!
# Verification of the xref / write-transformer core of the `borb` PDF library

This file embeds, in Lean 4, the two central routines of the repository:

* `StreamXREF.read` (src/ptext/pdf/xref/stream_xref.py): decoding of a
  PDF 1.5 cross-reference stream into a list of `Reference` records, and
* `WriteDictionaryTransformer.transform`
  (src/ptext/io/write_transform/object/write_dictionary_transformer.py):
  the dictionary case of the write-transformer pipeline.

Pure helpers carry the names of the source constructs they embed; values
that the Python code keeps in objects (byte pointers, reference lists,
the emission context) are threaded explicitly.
-/

namespace Borb

/-- The `Reference` record. Modelled from the spec: the Reference class
(ptext/io/read_transform/types.py) is not under src/; fields follow spec §3
(`object_number`, `generation_number` default 0, `is_in_use` — type-1 and
type-2 entries are in use, free entries are not —, `byte_offset`,
`parent_stream_object_number`, `index_in_parent_stream`, and the back-edge
to the owning document, here an opaque `Option Nat`). -/
structure Reference where
  object_number : Option Nat := none
  generation_number : Option Nat := some 0
  is_in_use : Bool := true
  byte_offset : Option Nat := none
  parent_stream_object_number : Option Nat := none
  index_in_parent_stream : Option Nat := none
  document : Option Nat := none
deriving Repr, DecidableEq

namespace StreamXREF

/-- Big-endian accumulation loop of `StreamXREF.read`
(`acc = (acc << 8) + (bytes[bptr] & 0xFF)`, repeated `w` times);
`none` models Python's `IndexError` when `bptr` runs past the data. -/
def readBE (bs : List Nat) : Nat → Nat → Nat → Option (Nat × Nat)
  | bptr, 0, acc => some (acc, bptr)
  | bptr, w + 1, acc =>
    match bs.get? bptr with
    | none => none
    | some b => readBE bs (bptr + 1) w (acc * 256 + b % 256)

/-- The type field of one entry: `type = 1; if widths[0] > 0: type = 0` then
the big-endian loop (stream_xref.py lines 117-122). -/
def readType (w1 : Nat) (bs : List Nat) (bptr : Nat) : Option (Nat × Nat) :=
  if w1 > 0 then readBE bs bptr w1 0 else some (1, bptr)

/-- Type-0 entry (free): `Reference(document=d, object_number=n,
byte_offset=field2, generation_number=field3, is_in_use=False)`. -/
def mkType0 (n f2 f3 : Nat) (d : Option Nat) : Reference :=
  { object_number := some n, byte_offset := some f2,
    generation_number := some f3, is_in_use := false, document := d }

/-- Type-1 entry (in use, uncompressed): `Reference(document=d,
object_number=n, byte_offset=field2, generation_number=field3)`. -/
def mkType1 (n f2 f3 : Nat) (d : Option Nat) : Reference :=
  { object_number := some n, byte_offset := some f2,
    generation_number := some f3, document := d }

/-- Type-2 entry (compressed): `Reference(document=d, object_number=n,
generation_number=0, parent_stream_object_number=field2,
index_in_parent_stream=field3)`. -/
def mkType2 (n f2 f3 : Nat) (d : Option Nat) : Reference :=
  { object_number := some n, generation_number := some 0,
    parent_stream_object_number := some f2,
    index_in_parent_stream := some f3, document := d }

/-- Decode one xref-stream entry at byte position `bptr` for object number
`objNum` (stream_xref.py lines 116-183): read the three big-endian fields,
then `assert type in [0, 1, 2]` and build the `Reference`. -/
def readEntry (w1 w2 w3 : Nat) (bs : List Nat) (d : Option Nat)
    (bptr objNum : Nat) : Except String (Reference × Nat) :=
  match readType w1 bs bptr with
  | none => .error "IndexError"
  | some (t, p1) =>
    match readBE bs p1 w2 0 with
    | none => .error "IndexError"
    | some (f2, p2) =>
      match readBE bs p2 w3 0 with
      | none => .error "IndexError"
      | some (f3, p3) =>
        if t = 0 then .ok (mkType0 objNum f2 f3 d, p3)
        else if t = 1 then .ok (mkType1 objNum f2 f3 d, p3)
        else if t = 2 then .ok (mkType2 objNum f2 f3 d, p3)
        else .error "AssertionError"

/-- Replace the first element satisfying `p` by its image under `f`
(the Python code mutates the first matching `Reference` object in the
`indirect_references` list). -/
def replaceFirst (p : Reference → Bool) (f : Reference → Reference) :
    List Reference → List Reference
  | [] => []
  | x :: xs => if p x then f x :: xs else x :: replaceFirst p f xs

/-- The compressed-object fill-in (stream_xref.py lines 214-219): only
`index_in_parent_stream` and `parent_stream_object_number` are written. -/
def updateCompressed (ex r : Reference) : Reference :=
  { ex with index_in_parent_stream := r.index_in_parent_stream,
            parent_stream_object_number := r.parent_stream_object_number }

/-- The merge step of `StreamXREF.read` (lines 185-219): look for an
existing reference with the same object number, compute
`ref_is_in_reading_state` and `ref_is_first_encountered`, and append,
fill in, or keep. -/
def mergeEntry (refs : List Reference) (objNum : Nat) (r : Reference) :
    List Reference :=
  let ex? := refs.find? (fun x => x.object_number == some objNum)
  let refIsInReadingState :=
    match ex? with
    | some ex => ex.is_in_use && (ex.generation_number == r.generation_number)
    | none => false
  let refIsFirstEncountered :=
    match ex? with
    | some ex => !refIsInReadingState && ex.document.isNone
    | none => true
  if refIsFirstEncountered then refs ++ [r]
  else if refIsInReadingState then
    replaceFirst (fun x => x.object_number == some objNum)
      (fun ex => updateCompressed ex r) refs
  else refs

/-- One `/Index` subsection (stream_xref.py lines 111-219): decode `count`
entries for consecutive object numbers starting at `objNum`, merging each
into the running reference list. -/
def readSubsection (w1 w2 w3 : Nat) (bs : List Nat) (d : Option Nat) :
    Nat → Nat → Nat → List Reference → Except String (List Reference)
  | _, 0, _, refs => .ok refs
  | objNum, count + 1, bptr, refs =>
    match readEntry w1 w2 w3 bs d bptr objNum with
    | .error e => .error e
    | .ok (r, bptr') =>
      readSubsection w1 w2 w3 bs d (objNum + 1) count bptr'
        (mergeEntry refs objNum r)

/-- The loop over `/Index` pairs (stream_xref.py lines 106-219).  Note that
the source re-initialises `bptr = 0` inside the subsection loop (line 110),
so every subsection reads from the START of the decoded bytes; the embedding
reproduces this faithfully. -/
def readSections (w1 w2 w3 : Nat) (bs : List Nat) (d : Option Nat) :
    List (Nat × Nat) → List Reference → Except String (List Reference)
  | [], refs => .ok refs
  | (start, count) :: rest, refs =>
    match readSubsection w1 w2 w3 bs d start count 0 refs with
    | .error e => .error e
    | .ok refs' => readSections w1 w2 w3 bs d rest refs'

/-- Group the `/Index` array into `(first, count)` pairs. -/
def pairUp : List Nat → List (Nat × Nat)
  | a :: b :: rest => (a, b) :: pairUp rest
  | _ => []

/-- The free-list head placed at the front of `indirect_references`
(stream_xref.py lines 69-76): `Reference(object_number=0,
generation_number=65535, is_in_use=False, document=document)`. -/
def freeHead (d : Option Nat) : Reference :=
  { object_number := some 0, generation_number := some 65535,
    is_in_use := false, document := d }

/-- `StreamXREF.read` (stream_xref.py lines 28-229), after the stream has
been located, its `/W`, `/Size`, `/Index` entries extracted and its bytes
decoded.  `widths` is the decoded `/W` array, `size` the `/Size` value,
`index` the optional `/Index` array, `bs` the decoded stream bytes and `d`
the owning document (`self.get_root()`, modelled as an opaque option).
Errors model the `IndexError` on `widths[0..2]`, the `IndexError` /
`assert` on a present `/Index`, and the per-entry failures of `readEntry`. -/
def read (widths : List Nat) (size : Nat) (index : Option (List Nat))
    (bs : List Nat) (d : Option Nat) : Except String (List Reference) :=
  match widths with
  | w1 :: w2 :: w3 :: _ =>
    match index with
    | some i =>
      if i.length % 2 ≠ 0 then .error "AssertionError"
      else if i.length < 2 then .error "IndexError"
      else readSections w1 w2 w3 bs d (pairUp i) [freeHead d]
    | none => readSections w1 w2 w3 bs d (pairUp [0, size]) [freeHead d]
  | _ => .error "IndexError"


/-! ## Supporting lemmas for the xref claims -/

/-- `find?` returns the head of `filter`. -/
theorem find?_eq_head?_filter {α : Type} (p : α → Bool) (l : List α) :
    l.find? p = (l.filter p).head? := by
  induction l with
  | nil => rfl
  | cons x xs ih =>
    by_cases h : p x
    · rw [List.find?_cons_of_pos _ h, List.filter_cons_of_pos h]
      rfl
    · rw [List.find?_cons_of_neg _ h, List.filter_cons_of_neg h, ih]

/-- `replaceFirst` leaves a `filter` unchanged when the replaced element is
invisible to the filter before and after the replacement. -/
theorem filter_replaceFirst (p q : Reference → Bool) (f : Reference → Reference)
    (h : ∀ x, p x = true → q x = false ∧ q (f x) = false) :
    ∀ l : List Reference, (replaceFirst p f l).filter q = l.filter q
  | [] => rfl
  | x :: xs => by
    by_cases hp : p x
    · simp [replaceFirst, hp, List.filter_cons, (h x hp).1, (h x hp).2]
    · simp [replaceFirst, hp, List.filter_cons,
        filter_replaceFirst p q f h xs]

/-- `replaceFirst` preserves length. -/
theorem length_replaceFirst (p : Reference → Bool) (f : Reference → Reference) :
    ∀ l : List Reference, (replaceFirst p f l).length = l.length
  | [] => rfl
  | x :: xs => by
    by_cases hp : p x <;>
      simp [replaceFirst, hp, length_replaceFirst p f xs]

/-- Every reference built by `readEntry` carries the decoded object number. -/
theorem readEntry_object_number (w1 w2 w3 : Nat) (bs : List Nat)
    (d : Option Nat) (bptr objNum : Nat) (r : Reference) (p : Nat)
    (h : readEntry w1 w2 w3 bs d bptr objNum = .ok (r, p)) :
    r.object_number = some objNum := by
  unfold readEntry at h
  split at h
  · simp at h
  split at h
  · simp at h
  split at h
  · simp at h
  split at h
  · injection h with h'
    injection h' with hr hp
    subst hr; rfl
  split at h
  · injection h with h'
    injection h' with hr hp
    subst hr; rfl
  split at h
  · injection h with h'
    injection h' with hr hp
    subst hr; rfl
  · simp at h

/-- Decidable form of "is the free-list head's object number". -/
def isObj0 (r : Reference) : Bool := r.object_number == some 0

/-- One merge step keeps "the references with object number 0 are exactly
the free-list head" whenever the head's document is present. -/
theorem mergeEntry_filter_obj0 (refs : List Reference) (objNum : Nat)
    (r : Reference) (d' : Nat)
    (hf : refs.filter isObj0 = [freeHead (some d')])
    (hr : r.object_number = some objNum) :
    (mergeEntry refs objNum r).filter isObj0 = [freeHead (some d')] := by
  by_cases h0 : objNum = 0
  · subst h0
    have hfind : refs.find? (fun x => x.object_number == some 0) =
        some (freeHead (some d')) := by
      rw [show (fun x : Reference => x.object_number == some 0) = isObj0 from rfl,
        find?_eq_head?_filter, hf]
      rfl
    simp [mergeEntry, hfind, freeHead, hf]
  · have hq : ∀ x : Reference, (x.object_number == some objNum) = true →
        isObj0 x = false ∧ isObj0 (updateCompressed x r) = false := by
      intro x hx
      have hxn : x.object_number = some objNum := by simpa using hx
      refine ⟨?_, ?_⟩
      · simp [isObj0, hxn, h0]
      · simp [isObj0, updateCompressed, hxn, h0]
    have hr0 : isObj0 r = false := by simp [isObj0, hr, h0]
    rcases hfind : refs.find? (fun x => x.object_number == some objNum) with
      _ | ex
    · simp [mergeEntry, hfind, List.filter_append, hf, hr0]
    · cases hiu : ex.is_in_use with
      | false =>
        cases hdoc : ex.document with
        | none =>
          simp [mergeEntry, hfind, hiu, hdoc, List.filter_append, hf, hr0]
        | some dv =>
          simp [mergeEntry, hfind, hiu, hdoc, hf]
      | true =>
        cases hgen : (ex.generation_number == r.generation_number) with
        | false =>
          cases hdoc : ex.document with
          | none =>
            simp [mergeEntry, hfind, hiu, hgen, hdoc, List.filter_append,
              hf, hr0]
          | some dv =>
            simp [mergeEntry, hfind, hiu, hgen, hdoc, hf]
        | true =>
          simp [mergeEntry, hfind, hiu, hgen,
            filter_replaceFirst _ _ _ hq refs, hf]

/-- The subsection loop preserves the free-list-head filter invariant. -/
theorem readSubsection_filter_obj0 (w1 w2 w3 : Nat) (bs : List Nat)
    (d : Option Nat) (d' : Nat) :
    ∀ (count objNum bptr : Nat) (refs refs' : List Reference),
      refs.filter isObj0 = [freeHead (some d')] →
      readSubsection w1 w2 w3 bs d objNum count bptr refs = .ok refs' →
      refs'.filter isObj0 = [freeHead (some d')]
  | 0, objNum, bptr, refs, refs', hf, h => by
    simp only [readSubsection] at h
    cases h; exact hf
  | count + 1, objNum, bptr, refs, refs', hf, h => by
    simp only [readSubsection] at h
    split at h
    · simp at h
    · rename_i r bptr' he
      exact readSubsection_filter_obj0 w1 w2 w3 bs d d' count (objNum + 1)
        bptr' _ refs'
        (mergeEntry_filter_obj0 refs objNum r d' hf
          (readEntry_object_number _ _ _ _ _ _ _ _ _ he)) h

/-- The section loop preserves the free-list-head filter invariant. -/
theorem readSections_filter_obj0 (w1 w2 w3 : Nat) (bs : List Nat)
    (d : Option Nat) (d' : Nat) :
    ∀ (ps : List (Nat × Nat)) (refs refs' : List Reference),
      refs.filter isObj0 = [freeHead (some d')] →
      readSections w1 w2 w3 bs d ps refs = .ok refs' →
      refs'.filter isObj0 = [freeHead (some d')]
  | [], refs, refs', hf, h => by
    simp only [readSections] at h
    cases h; exact hf
  | (start, count) :: rest, refs, refs', hf, h => by
    simp only [readSections] at h
    split at h
    · simp at h
    · rename_i refs1 hs
      exact readSections_filter_obj0 w1 w2 w3 bs d d' rest refs1 refs'
        (readSubsection_filter_obj0 w1 w2 w3 bs d d' count start 0 refs refs1
          hf hs) h

/-- After a successful `read` with a present document, the references whose
object number is 0 are exactly the initial free-list head. -/
theorem read_filter_obj0 (widths : List Nat) (size : Nat)
    (index : Option (List Nat)) (bs : List Nat) (d' : Nat)
    (refs : List Reference)
    (h : read widths size index bs (some d') = .ok refs) :
    refs.filter isObj0 = [freeHead (some d')] := by
  have hf0 : [freeHead (some d')].filter isObj0 = [freeHead (some d')] := by
    simp [isObj0, freeHead]
  rcases widths with _ | ⟨w1, widths⟩
  · simp [read] at h
  rcases widths with _ | ⟨w2, widths⟩
  · simp [read] at h
  rcases widths with _ | ⟨w3, widths⟩
  · simp [read] at h
  rcases index with _ | i
  · simp only [read] at h
    exact readSections_filter_obj0 w1 w2 w3 bs (some d') d' _ _ refs hf0 h
  · simp only [read] at h
    split at h
    · simp at h
    split at h
    · simp at h
    exact readSections_filter_obj0 w1 w2 w3 bs (some d') d' _ _ refs hf0 h


/-! ## Claim theorems about `StreamXREF.read` -/

/-- C1 (counterexample): an xref-stream entry whose type field decodes to 3
is NOT ignored: `StreamXREF.read` fails with an assertion error instead of
producing no reference and continuing. -/
theorem claim_C1_counterexample :
    read [1, 1, 1] 1 none [3, 0, 0] (some 0) = .error "AssertionError" := rfl

/-- C1 (amended): when the three fields of an entry decode successfully and
the type field is outside `{0, 1, 2}`, `readEntry` raises the assertion
`assert type in [0, 1, 2]` — the entry is not ignored, no reference is
produced, and the error propagates out of `StreamXREF.read`. -/
theorem claim_C1_amended (w1 w2 w3 : Nat) (bs : List Nat) (d : Option Nat)
    (bptr objNum t p1 f2 p2 f3 p3 : Nat)
    (h1 : readType w1 bs bptr = some (t, p1))
    (h2 : readBE bs p1 w2 0 = some (f2, p2))
    (h3 : readBE bs p2 w3 0 = some (f3, p3))
    (ht0 : t ≠ 0) (ht1 : t ≠ 1) (ht2 : t ≠ 2) :
    readEntry w1 w2 w3 bs d bptr objNum = .error "AssertionError" := by
  simp [readEntry, h1, h2, h3, ht0, ht1, ht2]

/-- Witness for `claim_C1_amended` at the concrete entry `[3]` with widths
`1 0 0`. -/
theorem claim_C1_amended_witness :
    readEntry 1 0 0 [3] (some 0) 0 5 = .error "AssertionError" :=
  claim_C1_amended 1 0 0 [3] (some 0) 0 5 3 1 0 1 0 1 rfl rfl rfl
    (by decide) (by decide) (by decide)

/-- C2 (failing evaluation): with widths `[1 1 1]` and
`/Index [0 1 5 1]` over the six decoded bytes `01 0A 00 02 07 04`,
`StreamXREF.read` reads the entry of the second subsection (object 5) from
bytes `[0, 3)` again — because `bptr` is re-initialised to 0 for every
subsection — yielding a type-1 reference with byte offset 10, instead of
reading bytes `[3, 6)` (type 2, parent 7, index 4) as entry number 1 of the
stream. -/
theorem claim_C2_failing_eval :
    read [1, 1, 1] 6 (some [0, 1, 5, 1]) [1, 10, 0, 2, 7, 4] (some 0) =
      .ok [freeHead (some 0), mkType1 5 10 0 (some 0)] := rfl

/-- C3 (counterexample): overlapping `/Index` subsections
(`[1 2 2 1]`, widths `[1 1 1]`, bytes `02 07 00 01 09 00`) make
`StreamXREF.read` fill compressed-object fields into the in-use type-1
reference for object 2, which then carries BOTH a `byte_offset` and a
`parent_stream_object_number`. -/
theorem claim_C3_counterexample :
    read [1, 1, 1] 3 (some [1, 2, 2, 1]) [2, 7, 0, 1, 9, 0] (some 0) =
      .ok [freeHead (some 0), mkType2 1 7 0 (some 0),
        { mkType1 2 9 0 (some 0) with
            parent_stream_object_number := some 7,
            index_in_parent_stream := some 0 }]
    ∧ ({ mkType1 2 9 0 (some 0) with
          parent_stream_object_number := some 7,
          index_in_parent_stream := some 0 } : Reference).byte_offset.isSome
        = true
    ∧ ({ mkType1 2 9 0 (some 0) with
          parent_stream_object_number := some 7,
          index_in_parent_stream := some 0 }
          : Reference).parent_stream_object_number.isSome = true :=
  ⟨rfl, rfl, rfl⟩

/-- C3 (amended): every reference as CONSTRUCTED by `readEntry` (types 0, 1
and 2) is located in at most one way — it never carries both a
`byte_offset` and a `parent_stream_object_number`.  (The invariant can
still be broken later by the compressed-object fill-in, see
`claim_C3_counterexample`.) -/
theorem claim_C3_amended (w1 w2 w3 : Nat) (bs : List Nat) (d : Option Nat)
    (bptr objNum : Nat) (r : Reference) (p : Nat)
    (h : readEntry w1 w2 w3 bs d bptr objNum = .ok (r, p)) :
    ¬(r.byte_offset.isSome = true ∧
      r.parent_stream_object_number.isSome = true) := by
  unfold readEntry at h
  split at h
  · simp at h
  split at h
  · simp at h
  split at h
  · simp at h
  split at h
  · injection h with h'
    injection h' with hr hp
    subst hr
    simp [mkType0]
  split at h
  · injection h with h'
    injection h' with hr hp
    subst hr
    simp [mkType1]
  split at h
  · injection h with h'
    injection h' with hr hp
    subst hr
    simp [mkType2]
  · simp at h

/-- Witness for `claim_C3_amended` at a concrete type-1 entry. -/
theorem claim_C3_amended_witness :
    ¬((mkType1 3 0 0 (some 0)).byte_offset.isSome = true ∧
      (mkType1 3 0 0 (some 0)).parent_stream_object_number.isSome = true) :=
  claim_C3_amended 1 0 0 [1] (some 0) 0 3 (mkType1 3 0 0 (some 0)) 1 rfl

/-- C4: the merge step of `StreamXREF.read` implements first-occurrence-
wins: (1) an object number seen for the first time appends a new reference;
(2) if the existing reference is in use with the same generation, only its
compressed-object fields are overwritten in place (no append, all other
fields kept); (3) otherwise — provided the existing reference belongs to a
document — the existing entry is kept untouched and nothing is appended. -/
theorem claim_C4_first_occurrence_wins (refs : List Reference) (objNum : Nat)
    (r : Reference) :
    (refs.find? (fun x => x.object_number == some objNum) = none →
      mergeEntry refs objNum r = refs ++ [r])
    ∧ (∀ ex, refs.find? (fun x => x.object_number == some objNum) = some ex →
        ex.is_in_use = true →
        ex.generation_number = r.generation_number →
        mergeEntry refs objNum r =
          replaceFirst (fun x => x.object_number == some objNum)
            (fun e => updateCompressed e r) refs
        ∧ (mergeEntry refs objNum r).length = refs.length
        ∧ ∀ e : Reference,
            (updateCompressed e r).object_number = e.object_number
            ∧ (updateCompressed e r).generation_number = e.generation_number
            ∧ (updateCompressed e r).is_in_use = e.is_in_use
            ∧ (updateCompressed e r).byte_offset = e.byte_offset
            ∧ (updateCompressed e r).parent_stream_object_number =
                r.parent_stream_object_number
            ∧ (updateCompressed e r).index_in_parent_stream =
                r.index_in_parent_stream)
    ∧ (∀ ex, refs.find? (fun x => x.object_number == some objNum) = some ex →
        ¬(ex.is_in_use = true ∧ ex.generation_number = r.generation_number) →
        ex.document ≠ none →
        mergeEntry refs objNum r = refs) := by
  refine ⟨?_, ?_, ?_⟩
  · intro hfind
    simp [mergeEntry, hfind]
  · intro ex hfind hiu hgen
    refine ⟨?_, ?_, ?_⟩
    · simp [mergeEntry, hfind, hiu, hgen]
    · rw [(by simp [mergeEntry, hfind, hiu, hgen] :
        mergeEntry refs objNum r =
          replaceFirst (fun x => x.object_number == some objNum)
            (fun e => updateCompressed e r) refs)]
      exact length_replaceFirst _ _ refs
    · intro e
      exact ⟨rfl, rfl, rfl, rfl, rfl, rfl⟩
  · intro ex hfind hns hdoc
    have hdoc' : ex.document.isNone = false := by
      cases hd : ex.document with
      | none => exact absurd hd hdoc
      | some dv => rfl
    cases hiu : ex.is_in_use with
    | false => simp [mergeEntry, hfind, hiu, hdoc']
    | true =>
      have hgen : (ex.generation_number == r.generation_number) = false := by
        rcases hg : ex.generation_number == r.generation_number with _ | _
        · rfl
        · exact absurd ⟨hiu, by simpa using hg⟩ hns
      simp [mergeEntry, hfind, hiu, hgen, hdoc']

/-- Witness for `claim_C4_first_occurrence_wins`: first encounter appends. -/
theorem claim_C4_witness :
    mergeEntry [] 4 (mkType1 4 9 0 (some 0)) = [] ++ [mkType1 4 9 0 (some 0)] :=
  (claim_C4_first_occurrence_wins [] 4 (mkType1 4 9 0 (some 0))).1 rfl

/-- C8: a zero-width field takes its default — `w1 = 0` makes the entry
type default to 1, a width-0 field reads as 0 — and `/W [1 0 0]` is
accepted: every entry then carries only a type, with field2 and field3
both 0 in the resulting reference. -/
theorem claim_C8_zero_width_defaults :
    (∀ (bs : List Nat) (bptr : Nat), readType 0 bs bptr = some (1, bptr))
    ∧ (∀ (bs : List Nat) (bptr : Nat), readBE bs bptr 0 0 = some (0, bptr))
    ∧ (∀ (bs : List Nat) (d : Option Nat) (bptr objNum b : Nat),
        bs.get? bptr = some b → b = 0 ∨ b = 1 ∨ b = 2 →
        ∃ r, readEntry 1 0 0 bs d bptr objNum = .ok (r, bptr + 1)
          ∧ r.generation_number = some 0
          ∧ r.byte_offset.getD 0 = 0
          ∧ r.parent_stream_object_number.getD 0 = 0
          ∧ r.index_in_parent_stream.getD 0 = 0)
    ∧ read [1, 0, 0] 2 none [1, 2] (some 0) =
        .ok [freeHead (some 0), mkType2 1 0 0 (some 0)] := by
  refine ⟨fun bs bptr => rfl, fun bs bptr => rfl, ?_, rfl⟩
  intro bs d bptr objNum b hb htype
  have hb' : bs[bptr]? = some b := by simpa using hb
  have hread : readType 1 bs bptr = some (b % 256, bptr + 1) := by
    simp [readType, readBE, hb']
  rcases htype with rfl | rfl | rfl
  · exact ⟨mkType0 objNum 0 0 d, by simp [readEntry, hread, readBE],
      rfl, rfl, rfl, rfl⟩
  · exact ⟨mkType1 objNum 0 0 d, by simp [readEntry, hread, readBE],
      rfl, rfl, rfl, rfl⟩
  · exact ⟨mkType2 objNum 0 0 d, by simp [readEntry, hread, readBE],
      rfl, rfl, rfl, rfl⟩

/-- Witness for `claim_C8_zero_width_defaults` at concrete inputs. -/
theorem claim_C8_witness :
    readType 0 [5] 2 = some (1, 2)
    ∧ readBE [9] 1 0 0 = some (0, 1)
    ∧ (∃ r, readEntry 1 0 0 [2] (some 3) 0 7 = .ok (r, 1)
        ∧ r.generation_number = some 0
        ∧ r.byte_offset.getD 0 = 0
        ∧ r.parent_stream_object_number.getD 0 = 0
        ∧ r.index_in_parent_stream.getD 0 = 0) :=
  ⟨claim_C8_zero_width_defaults.1 [5] 2,
    claim_C8_zero_width_defaults.2.1 [9] 1,
    claim_C8_zero_width_defaults.2.2.1 [2] (some 3) 0 7 2 rfl
      (Or.inr (Or.inr rfl))⟩

/-- If a filter keeps nothing, no stronger predicate counts anything. -/
theorem countP_eq_zero_of_filter_nil (full q : Reference → Bool)
    (himp : ∀ x, full x = true → q x = true) :
    ∀ l : List Reference, l.filter q = [] → l.countP full = 0
  | [], _ => rfl
  | x :: xs, hfil => by
    by_cases hq : q x
    · rw [List.filter_cons_of_pos hq] at hfil
      exact absurd hfil (by simp)
    · rw [List.filter_cons_of_neg hq] at hfil
      have hfx : full x = false := by
        rcases hf : full x with _ | _
        · rfl
        · exact absurd (himp x hf) hq
      rw [List.countP_cons, hfx]
      simp [countP_eq_zero_of_filter_nil full q himp xs hfil]

/-- If a filter keeps exactly one element and that element satisfies the
stronger predicate, the stronger predicate counts exactly one element. -/
theorem countP_eq_one_of_filter_single (full q : Reference → Bool)
    (himp : ∀ x, full x = true → q x = true) :
    ∀ (l : List Reference) (a : Reference),
      l.filter q = [a] → full a = true → l.countP full = 1
  | [], a, hfil, _ => by simp at hfil
  | x :: xs, a, hfil, ha => by
    by_cases hq : q x
    · rw [List.filter_cons_of_pos hq] at hfil
      rcases List.cons_eq_cons.mp hfil with ⟨hx, hxs⟩
      subst hx
      rw [List.countP_cons, ha,
        countP_eq_zero_of_filter_nil full q himp xs hxs]
      simp
    · rw [List.filter_cons_of_neg hq] at hfil
      have hfx : full x = false := by
        rcases hf : full x with _ | _
        · rfl
        · exact absurd (himp x hf) hq
      rw [List.countP_cons, hfx,
        countP_eq_one_of_filter_single full q himp xs a hfil ha]
      simp

/-- C9: after any successful `StreamXREF.read` on an xref that has an
owning document, the resulting reference list contains exactly one
free-list head — one reference with object number 0, generation 65535 and
`is_in_use = false` — no matter whether the stream's own entries cover
object number 0. -/
theorem claim_C9_free_list_head_unique (widths : List Nat) (size : Nat)
    (index : Option (List Nat)) (bs : List Nat) (d' : Nat)
    (refs : List Reference)
    (h : read widths size index bs (some d') = .ok refs) :
    refs.countP (fun r => r.object_number == some 0 &&
      (r.generation_number == some 65535 && !r.is_in_use)) = 1 := by
  have hf := read_filter_obj0 widths size index bs d' refs h
  refine countP_eq_one_of_filter_single _ isObj0 ?_ refs (freeHead (some d'))
    hf (by rfl)
  intro x hx
  have := (Bool.and_eq_true _ _).mp hx
  exact this.1

/-- Witness for `claim_C9_free_list_head_unique` on a one-entry stream. -/
theorem claim_C9_witness :
    List.countP (fun r : Reference => r.object_number == some 0 &&
      (r.generation_number == some 65535 && !r.is_in_use))
      [freeHead (some 7)] = 1 :=
  claim_C9_free_list_head_unique [1, 1, 1] 1 none [1, 0, 0] 7
    [freeHead (some 7)] rfl

end StreamXREF


namespace Writer

/-- A PDF value as seen by the write-transformer pipeline.  `scalar` stands
for any non-composite inline value (Null / Boolean / Number / Name /
String, kept opaque), `comp` is a pointer to a heap composite (a
`Dictionary`, `List`, `Stream` or `Image` object), and `wref` is a
`Reference` value (emitted inline as `N G R`). -/
inductive WVal where
  | scalar (c : Nat)
  | comp (id : Nat)
  | wref (n g : Nat)
deriving Repr, DecidableEq

/-- A heap composite: its Python class (0 = Dictionary, 1 = List,
2 = Stream, 3 = Image) and its insertion-ordered entries. -/
structure Composite where
  kind : Nat
  entries : List (Nat × WVal)
deriving Repr, DecidableEq

/-- One atomic write to the destination, abstracting the byte strings the
transformer emits. -/
inductive OutEvent where
  | beginObj (n g : Nat)
  | endObj (n g : Nat)
  | dictOpen
  | dictClose
  | key (k : Nat)
  | space
  | scalarOut (c : Nat)
  | refOut (n g : Nat)
  | compOut (id : Nat)
deriving Repr, DecidableEq

/-- The mutable state of a write pass: the object heap (Python objects,
mutated in place), the allocator for fresh heap ids, the back-references
attached to composites (`set_reference`), and the emission context of
spec §4.7 — `duplicate_references`, the recorded object locations
(`byte_offset` on the reference / `object_locations`), the object-number
allocator, and the output trace. -/
structure WState where
  heap : List (Nat × Composite)
  freshId : Nat
  backrefs : List (Nat × Nat)
  duplicates : List Nat
  locations : List (Nat × Nat)
  nextObj : Nat
  output : List OutEvent
deriving Repr, DecidableEq

/-- First-match association lookup on `Nat` keys. -/
def assocNat (l : List (Nat × Nat)) (i : Nat) : Option Nat :=
  (l.find? (fun p => p.1 == i)).map Prod.snd

/-- First-match lookup in the heap. -/
def heapFind (h : List (Nat × Composite)) (i : Nat) : Option Composite :=
  (h.find? (fun p => p.1 == i)).map Prod.snd

/-- Replace the first binding of key `i` (the heap object is mutated in
place in Python). -/
def heapSet : List (Nat × Composite) → Nat → Composite →
    List (Nat × Composite)
  | [], i, c => [(i, c)]
  | (j, d) :: t, i, c =>
    if j == i then (i, c) :: t else (j, d) :: heapSet t i c

/-- Append one event to the output trace. -/
def pushOut (e : OutEvent) (s : WState) : WState :=
  { s with output := s.output ++ [e] }

/-- `get_reference(v, context)`.  Modelled from the spec (§4.6 "Identity
assignment"; `WriteBaseTransformer.get_reference` is not under src/): if
the composite already carries a back-reference with an object number,
return it; otherwise allocate the next object number, attach it, and
return it. -/
def getReference (cid : Nat) (s : WState) : Nat × WState :=
  match assocNat s.backrefs cid with
  | some n => (n, s)
  | none =>
    (s.nextObj, { s with backrefs := s.backrefs ++ [(cid, s.nextObj)],
                         nextObj := s.nextObj + 1 })

/-- The child-rewriting loop of `WriteDictionaryTransformer.transform`
(lines 40-51): a `Dictionary` / `List` / `Stream` / `Image` child is
replaced by its reference (from `get_reference`) and queued; every other
child is copied into `out_value` unchanged. -/
def rewriteChildren (s : WState) :
    List (Nat × WVal) → WState × List (Nat × WVal) × List WVal
  | [] => (s, [], [])
  | (k, v) :: rest =>
    match v with
    | .comp cid =>
      let p := getReference cid s
      let q := rewriteChildren p.2 rest
      (q.1, (k, .wref p.1 0) :: q.2.1, .comp cid :: q.2.2)
    | _ =>
      let q := rewriteChildren s rest
      (q.1, (k, v) :: q.2.1, q.2.2)

/-- Inline emission of an `out_value` entry (keys and values are written
through the root transformer; `out_value` values are scalars or
references, so this is a single event). -/
def inlineEvent : WVal → OutEvent
  | .scalar c => .scalarOut c
  | .wref n g => .refOut n g
  | .comp id => .compOut id

/-- Events of the dictionary body loop (lines 66-74): `<<`, then
`key SP value`, separated by `SP` (no separator after the last pair),
then `>>`. -/
def bodyEventsAux : List (Nat × WVal) → List OutEvent
  | [] => []
  | [(k, v)] => [.key k, .space, inlineEvent v]
  | (k, v) :: rest => [.key k, .space, inlineEvent v, .space] ++ bodyEventsAux rest

/-- All events of one dictionary body. -/
def bodyEvents (es : List (Nat × WVal)) : List OutEvent :=
  [OutEvent.dictOpen] ++ bodyEventsAux es ++ [OutEvent.dictClose]

/-- Write the dictionary body at the current location. -/
def writeBody (es : List (Nat × WVal)) (s : WState) : WState :=
  { s with output := s.output ++ bodyEvents es }

/-- `start_object`.  Modelled from the spec (§4.6 step 2, §4.7;
`WriteBaseTransformer.start_object` is not under src/): write `N G obj`
and record the byte offset of the object in the reference /
`object_locations`. -/
def startObject (n : Nat) (s : WState) : WState :=
  { s with output := s.output ++ [OutEvent.beginObj n 0],
           locations := s.locations ++ [(n, s.output.length)] }

/-- `end_object`.  Modelled from the spec (§4.6; not under src/): write
`endobj`. -/
def endObject (n : Nat) (s : WState) : WState :=
  { s with output := s.output ++ [OutEvent.endObj n 0] }

/-- Recurse into the queued composites (lines 80-81): transform each queue
element in order as a top-level object. -/
def transformList (step : WVal → WState → Option (WState × Option Nat)) :
    List WVal → WState → Option WState
  | [], s => some s
  | v :: rest, s =>
    match step v s with
    | none => none
    | some (s', _) => transformList step rest s'

/-- The queued composite children, in dictionary-iteration order. -/
def compChildren (es : List (Nat × WVal)) : List WVal :=
  es.filterMap (fun kv =>
    match kv.2 with
    | .comp cid => some (WVal.comp cid)
    | _ => none)

/-- Rewriting of a single child under a back-reference table. -/
def rewriteVal (brs : List (Nat × Nat)) : WVal → WVal
  | .comp cid => .wref ((assocNat brs cid).getD 0) 0
  | v => v

end Writer

namespace Writer

/-- `WriteDictionaryTransformer.transform` (write_dictionary_transformer.py
lines 26-84), with the root transformer passed as `rec`:
build the fresh `out_value`, rewrite composite children to references and
queue them, then — if the input dictionary carries a back-reference —
either return early when it is already in `duplicate_references`, or
start the object when it has no recorded byte offset, append it to
`duplicate_references`, write the body, end the object, and finally
recurse into the queue.  The returned id is `out_value` (`None` on the
early duplicate return, as in the source).  `phase1` is the construction
part (lines 36-51): allocate the fresh `out_value`, rewrite the children
and store the rewritten entries. -/
def WriteDictionaryTransformer.phase1 (c : Composite) (s : WState) :
    WState × List (Nat × WVal) × List WVal :=
  let outId := s.freshId
  let s1 : WState :=
    { s with heap := s.heap ++ [(outId, { kind := 0, entries := [] })],
             freshId := s.freshId + 1 }
  let r1 := rewriteChildren s1 c.entries
  let s3 : WState :=
    { r1.1 with heap := heapSet r1.1.heap outId { kind := 0, entries := r1.2.1 } }
  (s3, r1.2.1, r1.2.2)

/-- The emission segment of `transform` (lines 54-78) in the case where the
dictionary has a back-reference not yet in `duplicate_references`: start
the object when its reference has no recorded byte offset, append the
reference to `duplicate_references`, write the body, and end the object. -/
def WriteDictionaryTransformer.emitSegment (n : Nat)
    (es : List (Nat × WVal)) (s : WState) : WState :=
  let started := (assocNat s.locations n).isNone
  let s4 := if started then startObject n s else s
  let s5 : WState := { s4 with duplicates := s4.duplicates ++ [n] }
  let s6 := writeBody es s5
  if started then endObject n s6 else s6

def WriteDictionaryTransformer.transform
    (rec : WVal → WState → Option (WState × Option Nat))
    (dId : Nat) (s : WState) : Option (WState × Option Nat) :=
  match heapFind s.heap dId with
  | none => none
  | some c =>
    match assocNat (WriteDictionaryTransformer.phase1 c s).1.backrefs dId with
    | some n =>
      if n ∈ (WriteDictionaryTransformer.phase1 c s).1.duplicates then
        some ((WriteDictionaryTransformer.phase1 c s).1, none)
      else
        match transformList rec (WriteDictionaryTransformer.phase1 c s).2.2
            (WriteDictionaryTransformer.emitSegment n
              (WriteDictionaryTransformer.phase1 c s).2.1
              (WriteDictionaryTransformer.phase1 c s).1) with
        | none => none
        | some s8 => some (s8, some s.freshId)
    | none =>
      match transformList rec (WriteDictionaryTransformer.phase1 c s).2.2
          (writeBody (WriteDictionaryTransformer.phase1 c s).2.1
            (WriteDictionaryTransformer.phase1 c s).1) with
      | none => none
      | some s8 => some (s8, some s.freshId)

/-- The root transformer of a write pass (spec §4.6; the per-kind leaf
transformers are not under src/ and are modelled from the spec: scalars
emit their textual form, a `Reference` emits `N G R`), with fuel bounding
the recursion depth.  Composites are handled by
`WriteDictionaryTransformer.transform`; spec-modelled: `List`, `Stream`
and `Image` composites follow the same rewrite / duplicate-suppression /
queue pattern as dictionaries (§4.6), so all composite kinds share the
dictionary code path here. -/
def transformV : Nat → WVal → WState → Option (WState × Option Nat)
  | 0, _, _ => none
  | f + 1, v, s =>
    match v with
    | .scalar c => some (pushOut (.scalarOut c) s, none)
    | .wref n g => some (pushOut (.refOut n g) s, none)
    | .comp dId =>
      WriteDictionaryTransformer.transform
        (fun v' s' => transformV f v' s') dId s

end Writer


namespace Writer

/-! ## Supporting lemmas for the write-transformer claims -/

/-- All heap ids are below the allocator: the well-formedness that makes
fresh `out_value` ids genuinely fresh. -/
def wfHeap (s : WState) : Prop := ∀ p ∈ s.heap, p.1 < s.freshId

theorem assocNat_append_left {l l' : List (Nat × Nat)} {i n : Nat}
    (h : assocNat l i = some n) : assocNat (l ++ l') i = some n := by
  unfold assocNat at h ⊢
  rcases hf : l.find? (fun p => p.1 == i) with _ | p
  · rw [hf] at h; simp at h
  · rw [List.find?_append, hf]
    rw [hf] at h
    simpa using h

theorem assocNat_append_fresh {l : List (Nat × Nat)} {i n : Nat}
    (h : assocNat l i = none) : assocNat (l ++ [(i, n)]) i = some n := by
  unfold assocNat at h ⊢
  rcases hf : l.find? (fun p => p.1 == i) with _ | p
  · rw [List.find?_append, hf]
    simp [List.find?]
  · rw [hf] at h; simp at h

theorem assocNat_append_ne {l : List (Nat × Nat)} {k x m : Nat}
    (h : m ≠ k) : assocNat (l ++ [(k, x)]) m = assocNat l m := by
  unfold assocNat
  rw [List.find?_append]
  have hk : (k == m) = false := beq_eq_false_iff_ne.mpr (Ne.symm h)
  have : ([(k, x)].find? (fun p => p.1 == m)) = none := by
    simp [List.find?, hk]
  rw [this]
  rcases hf : l.find? (fun p => p.1 == m) with _ | p <;> simp

theorem heapFind_append_left {hp hp' : List (Nat × Composite)} {i : Nat}
    {c : Composite} (h : heapFind hp i = some c) :
    heapFind (hp ++ hp') i = some c := by
  unfold heapFind at h ⊢
  rcases hf : hp.find? (fun p => p.1 == i) with _ | p
  · rw [hf] at h; simp at h
  · rw [List.find?_append, hf]
    rw [hf] at h
    simpa using h

theorem heapFind_none_of_ge {s : WState} (hwf : wfHeap s) {i : Nat}
    (hge : s.freshId ≤ i) : heapFind s.heap i = none := by
  unfold heapFind
  rcases hf : s.heap.find? (fun p => p.1 == i) with _ | q
  · simp [hf]
  · have hmem := List.mem_of_find?_eq_some hf
    have hpred := List.find?_some hf
    have hqi : q.1 = i := by simpa using hpred
    have := hwf q hmem
    omega

theorem heapSet_append_fresh {hp : List (Nat × Composite)} {i : Nat}
    {c0 c1 : Composite} (h : heapFind hp i = none) :
    heapSet (hp ++ [(i, c0)]) i c1 = hp ++ [(i, c1)] := by
  induction hp with
  | nil => simp [heapSet]
  | cons p t ih =>
    rcases p with ⟨j, d⟩
    have hj : (j == i) = false := by
      unfold heapFind at h
      rcases hji : (j == i) with _ | _
      · rfl
      · rw [List.find?_cons_of_pos _ (by simpa using hji)] at h
        simp at h
    have ht : heapFind t i = none := by
      unfold heapFind at h ⊢
      rw [List.find?_cons_of_neg _ (by simp [hj])] at h
      exact h
    rw [List.cons_append, List.cons_append]
    show heapSet ((j, d) :: (t ++ [(i, c0)])) i c1 = (j, d) :: (t ++ [(i, c1)])
    simp only [heapSet]
    rw [if_neg (by simp [hj]), ih ht]

theorem heapFind_heapSet_self (hp : List (Nat × Composite)) (i : Nat)
    (c : Composite) : heapFind (heapSet hp i c) i = some c := by
  induction hp with
  | nil => simp [heapSet, heapFind, List.find?]
  | cons q t ih =>
    rcases q with ⟨j, d⟩
    by_cases hj : (j == i) = true
    · simp only [heapSet]
      rw [if_pos hj]
      simp [heapFind, List.find?_cons]
    · simp only [heapSet]
      rw [if_neg hj]
      have hj' : (j == i) = false := by simpa using hj
      simpa [heapFind, List.find?_cons, hj'] using ih

theorem mem_heapSet {hp : List (Nat × Composite)} {i : Nat} {c : Composite}
    {p : Nat × Composite} (h : p ∈ heapSet hp i c) :
    p.1 = i ∨ p ∈ hp := by
  induction hp with
  | nil =>
    simp [heapSet] at h
    subst h; left; rfl
  | cons q t ih =>
    rcases q with ⟨j, d⟩
    by_cases hj : (j == i) = true
    · simp only [heapSet] at h
      rw [if_pos hj] at h
      rcases List.mem_cons.mp h with h1 | h1
      · left; rw [h1]
      · right; exact List.mem_cons_of_mem _ h1
    · simp only [heapSet] at h
      rw [if_neg hj] at h
      rcases List.mem_cons.mp h with h1 | h1
      · right; rw [h1]; exact List.mem_cons_self _ _
      · rcases ih h1 with h' | h'
        · left; exact h'
        · right; exact List.mem_cons_of_mem _ h'

theorem getReference_backrefs_assoc (cid : Nat) (s : WState) :
    assocNat (getReference cid s).2.backrefs cid =
      some (getReference cid s).1 := by
  unfold getReference
  rcases h : assocNat s.backrefs cid with _ | n
  · simpa using assocNat_append_fresh h
  · simpa using h

theorem getReference_mono {cid : Nat} {s : WState} {i n : Nat}
    (h : assocNat s.backrefs i = some n) :
    assocNat (getReference cid s).2.backrefs i = some n := by
  unfold getReference
  rcases hc : assocNat s.backrefs cid with _ | m
  · simpa using assocNat_append_left h
  · simpa using h

theorem getReference_frame (cid : Nat) (s : WState) :
    (getReference cid s).2.heap = s.heap
    ∧ (getReference cid s).2.freshId = s.freshId
    ∧ (getReference cid s).2.duplicates = s.duplicates
    ∧ (getReference cid s).2.locations = s.locations
    ∧ (getReference cid s).2.output = s.output := by
  unfold getReference
  rcases hc : assocNat s.backrefs cid with _ | m <;>
    exact ⟨rfl, rfl, rfl, rfl, rfl⟩

theorem rewriteChildren_frame :
    ∀ (es : List (Nat × WVal)) (s : WState),
      (rewriteChildren s es).1.heap = s.heap
      ∧ (rewriteChildren s es).1.freshId = s.freshId
      ∧ (rewriteChildren s es).1.duplicates = s.duplicates
      ∧ (rewriteChildren s es).1.locations = s.locations
      ∧ (rewriteChildren s es).1.output = s.output
  | [], s => ⟨rfl, rfl, rfl, rfl, rfl⟩
  | (k, v) :: rest, s => by
    cases v with
    | comp cid =>
      simp only [rewriteChildren]
      have h1 := getReference_frame cid s
      have h2 := rewriteChildren_frame rest (getReference cid s).2
      exact ⟨h2.1.trans h1.1, h2.2.1.trans h1.2.1, h2.2.2.1.trans h1.2.2.1,
        h2.2.2.2.1.trans h1.2.2.2.1, h2.2.2.2.2.trans h1.2.2.2.2⟩
    | scalar c => simpa only [rewriteChildren] using rewriteChildren_frame rest s
    | wref n g => simpa only [rewriteChildren] using rewriteChildren_frame rest s

theorem rewriteChildren_mono :
    ∀ (es : List (Nat × WVal)) (s : WState) {i n : Nat},
      assocNat s.backrefs i = some n →
      assocNat (rewriteChildren s es).1.backrefs i = some n
  | [], s, i, n, h => h
  | (k, v) :: rest, s, i, n, h => by
    cases v with
    | comp cid =>
      simp only [rewriteChildren]
      exact rewriteChildren_mono rest _ (getReference_mono h)
    | scalar c => simpa only [rewriteChildren] using rewriteChildren_mono rest s h
    | wref m g => simpa only [rewriteChildren] using rewriteChildren_mono rest s h

theorem rewriteChildren_queue :
    ∀ (es : List (Nat × WVal)) (s : WState),
      (rewriteChildren s es).2.2 = compChildren es
  | [], s => rfl
  | (k, v) :: rest, s => by
    cases v with
    | comp cid =>
      simp only [rewriteChildren, compChildren, List.filterMap_cons]
      exact congrArg _ (rewriteChildren_queue rest _)
    | scalar c =>
      simpa only [rewriteChildren, compChildren, List.filterMap_cons] using
        rewriteChildren_queue rest s
    | wref n g =>
      simpa only [rewriteChildren, compChildren, List.filterMap_cons] using
        rewriteChildren_queue rest s

theorem rewriteChildren_entries :
    ∀ (es : List (Nat × WVal)) (s : WState),
      (rewriteChildren s es).2.1 =
        es.map (fun kv => (kv.1, rewriteVal (rewriteChildren s es).1.backrefs kv.2))
  | [], s => rfl
  | (k, v) :: rest, s => by
    cases v with
    | comp cid =>
      simp only [rewriteChildren, List.map_cons]
      refine congrArg₂ _ ?_ (rewriteChildren_entries rest _)
      have hassoc : assocNat (rewriteChildren (getReference cid s).2 rest).1.backrefs cid =
          some (getReference cid s).1 :=
        rewriteChildren_mono rest _ (getReference_backrefs_assoc cid s)
      simp [rewriteVal, hassoc]
    | scalar c =>
      simp only [rewriteChildren, List.map_cons]
      exact congrArg₂ _ (by simp [rewriteVal]) (rewriteChildren_entries rest s)
    | wref n g =>
      simp only [rewriteChildren, List.map_cons]
      exact congrArg₂ _ (by simp [rewriteVal]) (rewriteChildren_entries rest s)

/-- Is this event the `N G obj` marker for object number `n`? -/
def isBeginFor (n : Nat) : OutEvent → Bool
  | OutEvent.beginObj m _ => m == n
  | _ => false

/-- Is this event the `endobj` marker for object number `n`? -/
def isEndFor (n : Nat) : OutEvent → Bool
  | OutEvent.endObj m _ => m == n
  | _ => false

/-- Number of `N G obj` markers for object number `n` in the output. -/
def countBegin (n : Nat) (out : List OutEvent) : Nat := out.countP (isBeginFor n)

/-- Number of `endobj` markers for object number `n` in the output. -/
def countEnd (n : Nat) (out : List OutEvent) : Nat := out.countP (isEndFor n)

theorem countBegin_append (n : Nat) (a b : List OutEvent) :
    countBegin n (a ++ b) = countBegin n a + countBegin n b :=
  List.countP_append _ _ _

theorem countEnd_append (n : Nat) (a b : List OutEvent) :
    countEnd n (a ++ b) = countEnd n a + countEnd n b :=
  List.countP_append _ _ _

theorem countBegin_bodyEventsAux (n : Nat) :
    ∀ es : List (Nat × WVal), countBegin n (bodyEventsAux es) = 0
  | [] => rfl
  | [(k, v)] => by cases v <;> rfl
  | (k, v) :: kv2 :: rest => by
    cases v <;>
      simpa [bodyEventsAux, countBegin, inlineEvent, List.countP_cons,
        isBeginFor] using countBegin_bodyEventsAux n (kv2 :: rest)

theorem countEnd_bodyEventsAux (n : Nat) :
    ∀ es : List (Nat × WVal), countEnd n (bodyEventsAux es) = 0
  | [] => rfl
  | [(k, v)] => by cases v <;> rfl
  | (k, v) :: kv2 :: rest => by
    cases v <;>
      simpa [bodyEventsAux, countEnd, inlineEvent, List.countP_cons,
        isEndFor] using countEnd_bodyEventsAux n (kv2 :: rest)

theorem countBegin_bodyEvents (n : Nat) (es : List (Nat × WVal)) :
    countBegin n (bodyEvents es) = 0 := by
  simp [bodyEvents, countBegin, List.countP_append, List.countP_cons, isBeginFor]
  have := countBegin_bodyEventsAux n es
  simpa [countBegin] using this

theorem countEnd_bodyEvents (n : Nat) (es : List (Nat × WVal)) :
    countEnd n (bodyEvents es) = 0 := by
  simp [bodyEvents, countEnd, List.countP_append, List.countP_cons, isEndFor]
  have := countEnd_bodyEventsAux n es
  simpa [countEnd] using this

/-- The emission-context invariant of a write pass: an object number is in
`duplicate_references` exactly when its location has been recorded, and
each such object number has exactly one `N G obj` and one `endobj` marker
in the output (others have none). -/
def EmitInv (s : WState) : Prop :=
  ∀ n : Nat,
    (n ∈ s.duplicates ↔ (assocNat s.locations n).isSome = true)
    ∧ countBegin n s.output = (if n ∈ s.duplicates then 1 else 0)
    ∧ countEnd n s.output = (if n ∈ s.duplicates then 1 else 0)

end Writer


namespace Writer

open WriteDictionaryTransformer in
/-- What one transformer call may do to the write-pass state: the heap only
grows (existing bindings survive, given well-formedness), back-references
and `duplicate_references` only grow, output is append-only, and the
emission invariant is preserved. -/
def Steps (s s' : WState) : Prop :=
  s.freshId ≤ s'.freshId
  ∧ (wfHeap s → wfHeap s'
      ∧ ∀ i c, heapFind s.heap i = some c → heapFind s'.heap i = some c)
  ∧ (∀ i n, assocNat s.backrefs i = some n → assocNat s'.backrefs i = some n)
  ∧ (∀ n, n ∈ s.duplicates → n ∈ s'.duplicates)
  ∧ (∃ t, s'.output = s.output ++ t)
  ∧ (EmitInv s → EmitInv s')

theorem steps_refl (s : WState) : Steps s s :=
  ⟨Nat.le_refl _, fun hw => ⟨hw, fun _ _ h => h⟩, fun _ _ h => h,
    fun _ h => h, ⟨[], by simp⟩, id⟩

theorem steps_trans {a b c : WState} (hab : Steps a b) (hbc : Steps b c) :
    Steps a c := by
  obtain ⟨f1, h1, b1, d1, ⟨t1, o1⟩, e1⟩ := hab
  obtain ⟨f2, h2, b2, d2, ⟨t2, o2⟩, e2⟩ := hbc
  refine ⟨Nat.le_trans f1 f2, ?_, fun i n h => b2 i n (b1 i n h),
    fun n h => d2 n (d1 n h), ⟨t1 ++ t2, by rw [o2, o1, List.append_assoc]⟩,
    fun hI => e2 (e1 hI)⟩
  intro hw
  obtain ⟨hw2, hf2⟩ := h1 hw
  obtain ⟨hw3, hf3⟩ := h2 hw2
  exact ⟨hw3, fun i c h => hf3 i c (hf2 i c h)⟩

theorem emitInv_extend_neutral {s : WState} (evts : List OutEvent)
    (hb : ∀ m, countBegin m evts = 0) (he : ∀ m, countEnd m evts = 0)
    (hI : EmitInv s) : EmitInv { s with output := s.output ++ evts } := by
  intro m
  obtain ⟨h1, h2, h3⟩ := hI m
  exact ⟨h1, by simp [countBegin_append, hb, h2],
    by simp [countEnd_append, he, h3]⟩

theorem steps_output_extend_neutral (s : WState) (evts : List OutEvent)
    (hb : ∀ m, countBegin m evts = 0) (he : ∀ m, countEnd m evts = 0) :
    Steps s { s with output := s.output ++ evts } :=
  ⟨Nat.le_refl _, fun hw => ⟨hw, fun _ _ h => h⟩, fun _ _ h => h,
    fun _ h => h, ⟨evts, rfl⟩, emitInv_extend_neutral evts hb he⟩

theorem steps_pushOut_scalar (c : Nat) (s : WState) :
    Steps s (pushOut (OutEvent.scalarOut c) s) :=
  steps_output_extend_neutral s [OutEvent.scalarOut c]
    (fun _ => rfl) (fun _ => rfl)

theorem steps_pushOut_ref (n g : Nat) (s : WState) :
    Steps s (pushOut (OutEvent.refOut n g) s) :=
  steps_output_extend_neutral s [OutEvent.refOut n g]
    (fun _ => rfl) (fun _ => rfl)

theorem steps_writeBody (es : List (Nat × WVal)) (s : WState) :
    Steps s (writeBody es s) :=
  steps_output_extend_neutral s (bodyEvents es)
    (fun m => countBegin_bodyEvents m es) (fun m => countEnd_bodyEvents m es)

namespace WriteDictionaryTransformer

theorem phase1_frame (c : Composite) (s : WState) :
    (phase1 c s).1.duplicates = s.duplicates
    ∧ (phase1 c s).1.locations = s.locations
    ∧ (phase1 c s).1.output = s.output
    ∧ (phase1 c s).1.freshId = s.freshId + 1 := by
  have h := rewriteChildren_frame c.entries
    { s with heap := s.heap ++ [(s.freshId, { kind := 0, entries := [] })],
             freshId := s.freshId + 1 }
  exact ⟨h.2.2.1, h.2.2.2.1, h.2.2.2.2, h.2.1⟩

theorem phase1_backrefs_mono (c : Composite) (s : WState) {i n : Nat}
    (h : assocNat s.backrefs i = some n) :
    assocNat (phase1 c s).1.backrefs i = some n :=
  rewriteChildren_mono c.entries _ h

theorem phase1_queue (c : Composite) (s : WState) :
    (phase1 c s).2.2 = compChildren c.entries :=
  rewriteChildren_queue c.entries _

theorem phase1_entries (c : Composite) (s : WState) :
    (phase1 c s).2.1 =
      c.entries.map (fun kv => (kv.1, rewriteVal (phase1 c s).1.backrefs kv.2)) :=
  rewriteChildren_entries c.entries _

theorem phase1_heap (c : Composite) (s : WState) (hwf : wfHeap s) :
    (phase1 c s).1.heap =
      s.heap ++ [(s.freshId, { kind := 0, entries := (phase1 c s).2.1 })] := by
  have hfr := rewriteChildren_frame c.entries
    { s with heap := s.heap ++ [(s.freshId, { kind := 0, entries := [] })],
             freshId := s.freshId + 1 }
  have hnone : heapFind s.heap s.freshId = none :=
    heapFind_none_of_ge hwf (Nat.le_refl _)
  show heapSet (rewriteChildren _ c.entries).1.heap s.freshId _ = _
  rw [hfr.1]
  exact heapSet_append_fresh hnone

theorem phase1_wf (c : Composite) (s : WState) (hwf : wfHeap s) :
    wfHeap (phase1 c s).1 := by
  intro p hp
  rw [phase1_heap c s hwf] at hp
  rw [(phase1_frame c s).2.2.2]
  rcases List.mem_append.mp hp with h | h
  · exact Nat.lt_succ_of_lt (hwf p h)
  · have : p = (s.freshId, { kind := 0, entries := (phase1 c s).2.1 }) := by
      simpa using h
    rw [this]
    exact Nat.lt_succ_self _

theorem steps_phase1 (c : Composite) (s : WState) : Steps s (phase1 c s).1 := by
  obtain ⟨hd, hl, ho, hf⟩ := phase1_frame c s
  refine ⟨by rw [hf]; exact Nat.le_succ _, ?_,
    fun i n h => phase1_backrefs_mono c s h,
    fun n h => by rw [hd]; exact h, ⟨[], by rw [ho, List.append_nil]⟩, ?_⟩
  · intro hw
    refine ⟨phase1_wf c s hw, ?_⟩
    intro i c0 h
    rw [phase1_heap c s hw]
    exact heapFind_append_left h
  · intro hI
    intro m
    obtain ⟨h1, h2, h3⟩ := hI m
    rw [show ((phase1 c s).1.duplicates = s.duplicates) from hd,
      show ((phase1 c s).1.locations = s.locations) from hl,
      show ((phase1 c s).1.output = s.output) from ho]
    exact ⟨h1, h2, h3⟩

theorem emitSegment_eq_none {n : Nat} {es : List (Nat × WVal)} {s : WState}
    (hloc : assocNat s.locations n = none) :
    emitSegment n es s =
      { s with duplicates := s.duplicates ++ [n],
               locations := s.locations ++ [(n, s.output.length)],
               output := s.output ++ [OutEvent.beginObj n 0] ++ bodyEvents es
                 ++ [OutEvent.endObj n 0] } := by
  simp [emitSegment, startObject, writeBody, endObject, hloc]

theorem emitSegment_eq_some {n : Nat} {es : List (Nat × WVal)} {s : WState}
    {x : Nat} (hloc : assocNat s.locations n = some x) :
    emitSegment n es s =
      { s with duplicates := s.duplicates ++ [n],
               output := s.output ++ bodyEvents es } := by
  simp [emitSegment, startObject, writeBody, endObject, hloc]

theorem steps_emitSegment (n : Nat) (es : List (Nat × WVal)) (s : WState)
    (hdup : n ∉ s.duplicates) : Steps s (emitSegment n es s) := by
  rcases hloc : assocNat s.locations n with _ | x
  · rw [emitSegment_eq_none hloc]
    refine ⟨Nat.le_refl _, fun hw => ⟨hw, fun _ _ h => h⟩, fun _ _ h => h,
      fun m h => List.mem_append_left _ h,
      ⟨[OutEvent.beginObj n 0] ++ bodyEvents es ++ [OutEvent.endObj n 0],
        by simp⟩, ?_⟩
    intro hI m
    obtain ⟨h1, h2, h3⟩ := hI m
    by_cases hm : m = n
    · subst hm
      have hb0 : countBegin m s.output = 0 := by
        rw [h2, if_neg hdup]
      have he0 : countEnd m s.output = 0 := by
        rw [h3, if_neg hdup]
      refine ⟨?_, ?_, ?_⟩
      · constructor
        · intro _
          simp [assocNat_append_fresh hloc]
        · intro _
          exact List.mem_append_right _ (by simp)
      · have : m ∈ s.duplicates ++ [m] := List.mem_append_right _ (by simp)
        simp only [countBegin_append, hb0, countBegin_bodyEvents, this, if_pos]
        simp [countBegin, List.countP_cons, isBeginFor]
      · have : m ∈ s.duplicates ++ [m] := List.mem_append_right _ (by simp)
        simp only [countEnd_append, he0, countEnd_bodyEvents, this, if_pos]
        simp [countEnd, List.countP_cons, isEndFor]
    · have hmem : (m ∈ s.duplicates ++ [n]) ↔ m ∈ s.duplicates := by
        simp [List.mem_append, hm]
      have hassoc : assocNat (s.locations ++ [(n, s.output.length)]) m =
          assocNat s.locations m := assocNat_append_ne hm
      refine ⟨by rw [hmem, hassoc]; exact h1, ?_, ?_⟩
      · have hb1 : countBegin m [OutEvent.beginObj n 0] = 0 := by
          simp [countBegin, List.countP_cons, isBeginFor,
            beq_eq_false_iff_ne.mpr (Ne.symm hm)]
        have hb2 : countBegin m [OutEvent.endObj n 0] = 0 := rfl
        simp only [countBegin_append, hb1, hb2, countBegin_bodyEvents,
          Nat.add_zero]
        rw [h2]
        by_cases hmd : m ∈ s.duplicates
        · rw [if_pos hmd, if_pos (hmem.mpr hmd)]
        · rw [if_neg hmd, if_neg (fun hc => hmd (hmem.mp hc))]
      · have he1 : countEnd m [OutEvent.endObj n 0] = 0 := by
          simp [countEnd, List.countP_cons, isEndFor,
            beq_eq_false_iff_ne.mpr (Ne.symm hm)]
        have he2 : countEnd m [OutEvent.beginObj n 0] = 0 := rfl
        simp only [countEnd_append, he1, he2, countEnd_bodyEvents,
          Nat.add_zero]
        rw [h3]
        by_cases hmd : m ∈ s.duplicates
        · rw [if_pos hmd, if_pos (hmem.mpr hmd)]
        · rw [if_neg hmd, if_neg (fun hc => hmd (hmem.mp hc))]
  · rw [emitSegment_eq_some hloc]
    refine ⟨Nat.le_refl _, fun hw => ⟨hw, fun _ _ h => h⟩, fun _ _ h => h,
      fun m h => List.mem_append_left _ h, ⟨_, rfl⟩, ?_⟩
    intro hI
    exact absurd ((hI n).1.mpr (by simp [hloc])) hdup

end WriteDictionaryTransformer

theorem transformList_steps
    {step : WVal → WState → Option (WState × Option Nat)}
    (hstep : ∀ v s s' r, step v s = some (s', r) → Steps s s') :
    ∀ (q : List WVal) (s s' : WState),
      transformList step q s = some s' → Steps s s'
  | [], s, s', h => by
    simp only [transformList] at h
    cases h
    exact steps_refl _
  | v :: rest, s, s', h => by
    simp only [transformList] at h
    split at h
    · exact Option.noConfusion h
    · rename_i s1 r1 hv
      exact steps_trans (hstep v s s1 r1 hv)
        (transformList_steps hstep rest s1 s' h)

/-- The central preservation theorem: a successful transformer call relates
its input and output state by `Steps`. -/
theorem transformV_steps :
    ∀ (f : Nat) (v : WVal) (s s' : WState) (r : Option Nat),
      transformV f v s = some (s', r) → Steps s s' := by
  intro f
  induction f with
  | zero =>
    intro v s s' r h
    simp [transformV] at h
  | succ f ih =>
    intro v s s' r h
    cases v with
    | scalar c =>
      simp only [transformV] at h
      injection h with h'
      injection h' with h1 h2
      subst h1
      exact steps_pushOut_scalar c s
    | wref n g =>
      simp only [transformV] at h
      injection h with h'
      injection h' with h1 h2
      subst h1
      exact steps_pushOut_ref n g s
    | comp dId =>
      simp only [transformV] at h
      unfold WriteDictionaryTransformer.transform at h
      split at h
      · exact Option.noConfusion h
      · rename_i c hc
        split at h
        · rename_i n hn
          split at h
          · rename_i hdup
            injection h with h'
            injection h' with h1 h2
            subst h1
            exact WriteDictionaryTransformer.steps_phase1 c s
          · rename_i hdup
            split at h
            · exact Option.noConfusion h
            · rename_i s8 hlist
              injection h with h'
              injection h' with h1 h2
              subst h1
              exact steps_trans (WriteDictionaryTransformer.steps_phase1 c s)
                (steps_trans
                  (WriteDictionaryTransformer.steps_emitSegment n _ _ hdup)
                  (transformList_steps (fun v s a b hh => ih v s a b hh)
                    _ _ _ hlist))
        · rename_i hn
          split at h
          · exact Option.noConfusion h
          · rename_i s8 hlist
            injection h with h'
            injection h' with h1 h2
            subst h1
            exact steps_trans (WriteDictionaryTransformer.steps_phase1 c s)
              (steps_trans (steps_writeBody _ _)
                (transformList_steps (fun v s a b hh => ih v s a b hh)
                  _ _ _ hlist))

end Writer


namespace Writer

/-! ## Claim theorems about `WriteDictionaryTransformer.transform` -/

open WriteDictionaryTransformer

/-- C5: in a write pass whose emission context satisfies `EmitInv` (as a
fresh context does), (1) a dictionary whose back-reference is already in
`duplicate_references` is skipped entirely — nothing is written and
`duplicate_references` is unchanged; (2) otherwise its reference is
inserted into `duplicate_references` (before the recursion into the queued
children, which can only extend the set); and (3) at the end of the pass
every object number in `duplicate_references` has exactly one `N G obj`
and one `endobj` marker in the output. -/
theorem claim_C5_no_double_emit (f : Nat) (v : WVal) (s s' : WState)
    (r : Option Nat) (hI : EmitInv s) (h : transformV f v s = some (s', r)) :
    (∀ dId n, v = WVal.comp dId → assocNat s.backrefs dId = some n →
        n ∈ s.duplicates →
        s'.output = s.output ∧ s'.duplicates = s.duplicates)
    ∧ (∀ dId n, v = WVal.comp dId → assocNat s.backrefs dId = some n →
        n ∉ s.duplicates → n ∈ s'.duplicates)
    ∧ (∀ n, n ∈ s'.duplicates →
        countBegin n s'.output = 1 ∧ countEnd n s'.output = 1) := by
  have hI' : EmitInv s' :=
    (transformV_steps f v s s' r h).2.2.2.2.2 hI
  refine ⟨?_, ?_, ?_⟩
  · intro dId n hv hbr hdup
    subst hv
    cases f with
    | zero => simp [transformV] at h
    | succ f =>
      simp only [transformV] at h
      unfold WriteDictionaryTransformer.transform at h
      split at h
      · exact Option.noConfusion h
      · rename_i c hc
        have hbr' := phase1_backrefs_mono c s hbr
        simp only [hbr'] at h
        have hdup' : n ∈ (phase1 c s).1.duplicates := by
          rw [(phase1_frame c s).1]; exact hdup
        rw [if_pos hdup'] at h
        injection h with h'
        injection h' with h1 h2
        subst h1
        exact ⟨(phase1_frame c s).2.2.1, (phase1_frame c s).1⟩
  · intro dId n hv hbr hdup
    subst hv
    cases f with
    | zero => simp [transformV] at h
    | succ f =>
      simp only [transformV] at h
      unfold WriteDictionaryTransformer.transform at h
      split at h
      · exact Option.noConfusion h
      · rename_i c hc
        have hbr' := phase1_backrefs_mono c s hbr
        simp only [hbr'] at h
        have hdup' : n ∉ (phase1 c s).1.duplicates := by
          rw [(phase1_frame c s).1]; exact hdup
        rw [if_neg hdup'] at h
        split at h
        · exact Option.noConfusion h
        · rename_i s8 hlist
          injection h with h'
          injection h' with h1 h2
          subst h1
          have hmem : n ∈
              (emitSegment n (phase1 c s).2.1 (phase1 c s).1).duplicates := by
            rcases hloc : assocNat (phase1 c s).1.locations n with _ | x
            · rw [emitSegment_eq_none hloc]
              exact List.mem_append_right _ (by simp)
            · rw [emitSegment_eq_some hloc]
              exact List.mem_append_right _ (by simp)
          exact (transformList_steps
            (fun v s a b hh => transformV_steps f v s a b hh)
            _ _ _ hlist).2.2.2.1 n hmem
  · intro n hn
    obtain ⟨h1, h2, h3⟩ := hI' n
    exact ⟨by rw [h2, if_pos hn], by rw [h3, if_pos hn]⟩

/-- Witness for `claim_C5_no_double_emit` on a one-entry dictionary with a
pre-assigned reference 5, written with a fresh emission context. -/
theorem claim_C5_witness :
    countBegin 5 [OutEvent.beginObj 5 0, OutEvent.dictOpen, OutEvent.key 1,
      OutEvent.space, OutEvent.scalarOut 9, OutEvent.dictClose,
      OutEvent.endObj 5 0] = 1
    ∧ countEnd 5 [OutEvent.beginObj 5 0, OutEvent.dictOpen, OutEvent.key 1,
      OutEvent.space, OutEvent.scalarOut 9, OutEvent.dictClose,
      OutEvent.endObj 5 0] = 1 :=
  (claim_C5_no_double_emit 2 (WVal.comp 0)
    { heap := [(0, { kind := 0, entries := [(1, WVal.scalar 9)] })],
      freshId := 1, backrefs := [(0, 5)], duplicates := [], locations := [],
      nextObj := 6, output := [] }
    { heap := [(0, { kind := 0, entries := [(1, WVal.scalar 9)] }),
        (1, { kind := 0, entries := [(1, WVal.scalar 9)] })],
      freshId := 2, backrefs := [(0, 5)], duplicates := [5],
      locations := [(5, 0)], nextObj := 6,
      output := [OutEvent.beginObj 5 0, OutEvent.dictOpen, OutEvent.key 1,
        OutEvent.space, OutEvent.scalarOut 9, OutEvent.dictClose,
        OutEvent.endObj 5 0] }
    (some 1)
    (fun n => ⟨by simp [assocNat], by simp [countBegin], by simp [countEnd]⟩)
    rfl).2.2 5 (by simp)

/-- C10: `transform` never mutates any existing heap object — in
particular the input dictionary keeps its entries — and the rewriting is
performed on a freshly created output dictionary (an id unused in the
input heap), which is the value returned. -/
theorem claim_C10_input_dictionary_unchanged (f : Nat) (v : WVal)
    (s s' : WState) (r : Option Nat) (hwf : wfHeap s)
    (h : transformV f v s = some (s', r)) :
    (∀ i c, heapFind s.heap i = some c → heapFind s'.heap i = some c)
    ∧ (∀ dId oid, v = WVal.comp dId → r = some oid →
        oid = s.freshId ∧ heapFind s.heap oid = none) := by
  refine ⟨((transformV_steps f v s s' r h).2.1 hwf).2, ?_⟩
  intro dId oid hv hr
  subst hv
  cases f with
  | zero => simp [transformV] at h
  | succ f =>
    simp only [transformV] at h
    unfold WriteDictionaryTransformer.transform at h
    split at h
    · exact Option.noConfusion h
    · rename_i c hc
      split at h
      · rename_i n hn
        split at h
        · injection h with h'
          injection h' with h1 h2
          rw [← h2] at hr
          exact Option.noConfusion hr
        · split at h
          · exact Option.noConfusion h
          · rename_i s8 hlist
            injection h with h'
            injection h' with h1 h2
            rw [← h2] at hr
            injection hr with hr'
            refine ⟨hr'.symm, ?_⟩
            rw [← hr']
            exact heapFind_none_of_ge hwf (Nat.le_refl _)
      · split at h
        · exact Option.noConfusion h
        · rename_i s8 hlist
          injection h with h'
          injection h' with h1 h2
          rw [← h2] at hr
          injection hr with hr'
          refine ⟨hr'.symm, ?_⟩
          rw [← hr']
          exact heapFind_none_of_ge hwf (Nat.le_refl _)

/-- Witness for `claim_C10_input_dictionary_unchanged` at a concrete
dictionary. -/
theorem claim_C10_witness :
    (1 : Nat) = (1 : Nat)
    ∧ heapFind [(0, ({ kind := 0, entries := [(1, WVal.scalar 9)] } : Composite))] 1
        = none :=
  (claim_C10_input_dictionary_unchanged 2 (WVal.comp 0)
    { heap := [(0, { kind := 0, entries := [(1, WVal.scalar 9)] })],
      freshId := 1, backrefs := [(0, 5)], duplicates := [], locations := [],
      nextObj := 6, output := [] }
    { heap := [(0, { kind := 0, entries := [(1, WVal.scalar 9)] }),
        (1, { kind := 0, entries := [(1, WVal.scalar 9)] })],
      freshId := 2, backrefs := [(0, 5)], duplicates := [5],
      locations := [(5, 0)], nextObj := 6,
      output := [OutEvent.beginObj 5 0, OutEvent.dictOpen, OutEvent.key 1,
        OutEvent.space, OutEvent.scalarOut 9, OutEvent.dictClose,
        OutEvent.endObj 5 0] }
    (some 1)
    (by
      intro p hp
      simp at hp
      rw [hp]
      exact Nat.lt_succ_self 0)
    rfl).2 0 1 rfl rfl

end Writer


namespace Writer

theorem heapFind_append_self {hp : List (Nat × Composite)} {i : Nat}
    {c : Composite} (h : heapFind hp i = none) :
    heapFind (hp ++ [(i, c)]) i = some c := by
  unfold heapFind at h ⊢
  rcases hf : hp.find? (fun p => p.1 == i) with _ | q
  · rw [List.find?_append, hf]
    simp [List.find?]
  · rw [hf] at h; simp at h

namespace WriteDictionaryTransformer

theorem emitSegment_frame (n : Nat) (es : List (Nat × WVal)) (s : WState) :
    (emitSegment n es s).heap = s.heap
    ∧ (emitSegment n es s).freshId = s.freshId
    ∧ (emitSegment n es s).backrefs = s.backrefs
    ∧ (emitSegment n es s).nextObj = s.nextObj := by
  rcases hloc : assocNat s.locations n with _ | x
  · rw [emitSegment_eq_none hloc]; exact ⟨rfl, rfl, rfl, rfl⟩
  · rw [emitSegment_eq_some hloc]; exact ⟨rfl, rfl, rfl, rfl⟩

end WriteDictionaryTransformer

open WriteDictionaryTransformer

/-- C7: when `transform` hits a dictionary that carries a not-yet-emitted
back-reference `n` with no recorded byte offset, it returns the fresh
`out_value`, in which every composite child has been replaced by the
reference obtained from `get_reference` (scalar children and keys are kept
verbatim, in dictionary-iteration order), the composite children are
queued in that same order, the dictionary's own body is emitted first
(between `N G obj` and `endobj`), and the queued composites are then
emitted as top-level objects by recursing after the body. -/
theorem claim_C7_children_to_references (f : Nat) (s : WState) (dId : Nat)
    (c : Composite) (n : Nat) (s' : WState) (r : Option Nat)
    (hwf : wfHeap s)
    (hc : heapFind s.heap dId = some c)
    (hbr : assocNat s.backrefs dId = some n)
    (hdup : n ∉ s.duplicates)
    (hloc : assocNat s.locations n = none)
    (h : transformV (f + 1) (WVal.comp dId) s = some (s', r)) :
    r = some s.freshId
    ∧ (phase1 c s).2.1 =
        c.entries.map (fun kv => (kv.1, rewriteVal (phase1 c s).1.backrefs kv.2))
    ∧ (phase1 c s).2.2 = compChildren c.entries
    ∧ (emitSegment n (phase1 c s).2.1 (phase1 c s).1).output
        = s.output ++ [OutEvent.beginObj n 0] ++ bodyEvents ((phase1 c s).2.1)
          ++ [OutEvent.endObj n 0]
    ∧ transformList (fun v' s'' => transformV f v' s'') (compChildren c.entries)
        (emitSegment n ((phase1 c s).2.1) ((phase1 c s).1)) = some s'
    ∧ heapFind s'.heap s.freshId =
        some { kind := 0, entries := (phase1 c s).2.1 } := by
  simp only [transformV] at h
  unfold WriteDictionaryTransformer.transform at h
  simp only [hc] at h
  have hbr' := phase1_backrefs_mono c s hbr
  simp only [hbr'] at h
  have hdup' : n ∉ (phase1 c s).1.duplicates := by
    rw [(phase1_frame c s).1]; exact hdup
  rw [if_neg hdup'] at h
  split at h
  · exact Option.noConfusion h
  · rename_i s8 hlist
    injection h with h'
    injection h' with h1 h2
    subst h1
    have hloc' : assocNat (phase1 c s).1.locations n = none := by
      rw [(phase1_frame c s).2.1]; exact hloc
    have hq := phase1_queue c s
    refine ⟨h2.symm, phase1_entries c s, hq, ?_, ?_, ?_⟩
    · rw [emitSegment_eq_none hloc']
      show (phase1 c s).1.output ++ _ ++ _ ++ _ = _
      rw [(phase1_frame c s).2.2.1]
    · rw [← hq]; exact hlist
    · have hwf1 : wfHeap (phase1 c s).1 := phase1_wf c s hwf
      have hmid_heap :
          (emitSegment n (phase1 c s).2.1 (phase1 c s).1).heap
            = (phase1 c s).1.heap := (emitSegment_frame _ _ _).1
      have hmid_wf : wfHeap (emitSegment n (phase1 c s).2.1 (phase1 c s).1) := by
        intro p hp
        rw [hmid_heap] at hp
        rw [(emitSegment_frame n (phase1 c s).2.1 (phase1 c s).1).2.1]
        exact hwf1 p hp
      have hfind_mid :
          heapFind (emitSegment n (phase1 c s).2.1 (phase1 c s).1).heap s.freshId
            = some { kind := 0, entries := (phase1 c s).2.1 } := by
        rw [hmid_heap, phase1_heap c s hwf]
        exact heapFind_append_self (heapFind_none_of_ge hwf (Nat.le_refl _))
      exact ((transformList_steps
        (fun v s a b hh => transformV_steps f v s a b hh) _ _ _ hlist).2.1
          hmid_wf).2 _ _ hfind_mid

/-- Witness for `claim_C7_children_to_references` at a concrete
dictionary with one scalar child and no composite children. -/
theorem claim_C7_witness :
    (phase1 { kind := 0, entries := [(1, WVal.scalar 9)] }
      { heap := [(0, { kind := 0, entries := [(1, WVal.scalar 9)] })],
        freshId := 1, backrefs := [(0, 5)], duplicates := [],
        locations := [], nextObj := 6, output := [] }).2.2
      = compChildren [(1, WVal.scalar 9)]
    ∧ ((some 1 : Option Nat) = some 1) :=
  ⟨(claim_C7_children_to_references 0
    { heap := [(0, { kind := 0, entries := [(1, WVal.scalar 9)] })],
      freshId := 1, backrefs := [(0, 5)], duplicates := [], locations := [],
      nextObj := 6, output := [] }
    0 { kind := 0, entries := [(1, WVal.scalar 9)] } 5
    { heap := [(0, { kind := 0, entries := [(1, WVal.scalar 9)] }),
        (1, { kind := 0, entries := [(1, WVal.scalar 9)] })],
      freshId := 2, backrefs := [(0, 5)], duplicates := [5],
      locations := [(5, 0)], nextObj := 6,
      output := [OutEvent.beginObj 5 0, OutEvent.dictOpen, OutEvent.key 1,
        OutEvent.space, OutEvent.scalarOut 9, OutEvent.dictClose,
        OutEvent.endObj 5 0] }
    (some 1)
    (by
      intro p hp
      simp at hp
      rw [hp]
      exact Nat.lt_succ_self 0)
    rfl rfl (by simp) rfl rfl).2.2.1,
   rfl⟩

theorem rewriteChildren_self_assigned (dId : Nat) :
    ∀ (es : List (Nat × WVal)) (s : WState) (m : Nat),
      (∀ kv ∈ es, ∀ cid, kv.2 = WVal.comp cid → cid = dId) →
      assocNat s.backrefs dId = some m →
      (rewriteChildren s es).1.backrefs = s.backrefs
      ∧ (rewriteChildren s es).1.nextObj = s.nextObj
  | [], _, _, _, _ => ⟨rfl, rfl⟩
  | (k, v) :: rest, s, m, hcl, hm => by
    have hcl' : ∀ kv ∈ rest, ∀ cid, kv.2 = WVal.comp cid → cid = dId :=
      fun kv hkv => hcl kv (List.mem_cons_of_mem _ hkv)
    cases v with
    | comp cid =>
      have hcid : cid = dId :=
        hcl (k, WVal.comp cid) (List.mem_cons_self _ _) cid rfl
      have hm' : assocNat s.backrefs cid = some m := by rw [hcid]; exact hm
      have hg : getReference cid s = (m, s) := by
        unfold getReference; rw [hm']
      simp only [rewriteChildren, hg]
      exact rewriteChildren_self_assigned dId rest s m hcl' hm
    | scalar c =>
      simpa only [rewriteChildren] using
        rewriteChildren_self_assigned dId rest s m hcl' hm
    | wref a b =>
      simpa only [rewriteChildren] using
        rewriteChildren_self_assigned dId rest s m hcl' hm

theorem rewriteChildren_self_fresh (dId : Nat) :
    ∀ (es : List (Nat × WVal)) (s : WState),
      (∀ kv ∈ es, ∀ cid, kv.2 = WVal.comp cid → cid = dId) →
      s.backrefs = [] →
      compChildren es ≠ [] →
      (rewriteChildren s es).1.backrefs = [(dId, s.nextObj)]
      ∧ (rewriteChildren s es).1.nextObj = s.nextObj + 1
  | [], _, _, _, hne => absurd rfl hne
  | (k, v) :: rest, s, hcl, hbr, hne => by
    have hcl' : ∀ kv ∈ rest, ∀ cid, kv.2 = WVal.comp cid → cid = dId :=
      fun kv hkv => hcl kv (List.mem_cons_of_mem _ hkv)
    cases v with
    | comp cid =>
      have hcid : cid = dId :=
        hcl (k, WVal.comp cid) (List.mem_cons_self _ _) cid rfl
      have hnone : assocNat s.backrefs cid = none := by rw [hbr]; rfl
      have hg : getReference cid s =
          (s.nextObj, { s with backrefs := s.backrefs ++ [(cid, s.nextObj)],
                               nextObj := s.nextObj + 1 }) := by
        unfold getReference; rw [hnone]
      have hassoc2 : assocNat
          ({ s with backrefs := s.backrefs ++ [(cid, s.nextObj)],
                    nextObj := s.nextObj + 1 } : WState).backrefs dId
          = some s.nextObj := by
        show assocNat (s.backrefs ++ [(cid, s.nextObj)]) dId = some s.nextObj
        rw [hbr, hcid]
        simp [assocNat, List.find?]
      have hrest := rewriteChildren_self_assigned dId rest _ s.nextObj hcl'
        hassoc2
      simp only [rewriteChildren, hg]
      refine ⟨?_, ?_⟩
      · rw [hrest.1]
        show s.backrefs ++ [(cid, s.nextObj)] = [(dId, s.nextObj)]
        rw [hbr, hcid]
        rfl
      · rw [hrest.2]
    | scalar c =>
      have hne' : compChildren rest ≠ [] := by
        simpa [compChildren, List.filterMap_cons] using hne
      simpa only [rewriteChildren] using
        rewriteChildren_self_fresh dId rest s hcl' hbr hne'
    | wref a b =>
      have hne' : compChildren rest ≠ [] := by
        simpa [compChildren, List.filterMap_cons] using hne
      simpa only [rewriteChildren] using
        rewriteChildren_self_fresh dId rest s hcl' hbr hne'

theorem mem_compChildren_of_mem {es : List (Nat × WVal)} {k cid : Nat}
    (h : (k, WVal.comp cid) ∈ es) : WVal.comp cid ∈ compChildren es :=
  List.mem_filterMap.mpr ⟨(k, WVal.comp cid), h, rfl⟩

theorem compChildren_self {dId : Nat} {es : List (Nat × WVal)}
    (hcl : ∀ kv ∈ es, ∀ cid, kv.2 = WVal.comp cid → cid = dId) :
    ∀ e ∈ compChildren es, e = WVal.comp dId := by
  intro e he
  obtain ⟨kv, hkv, hf⟩ := List.mem_filterMap.mp he
  cases hv : kv.2 with
  | comp cid =>
    rw [hv] at hf
    simp at hf
    rw [← hf, hcl kv hkv cid hv]
  | scalar c =>
    rw [hv] at hf
    simp at hf
  | wref a b =>
    rw [hv] at hf
    simp at hf

theorem mem_bodyEventsAux :
    ∀ (es : List (Nat × WVal)) (k : Nat) (v : WVal),
      (k, v) ∈ es → inlineEvent v ∈ bodyEventsAux es
  | [], _, _, h => absurd h (List.not_mem_nil _)
  | [(k1, v1)], k, v, h => by
    simp only [List.mem_singleton, Prod.mk.injEq] at h
    obtain ⟨h1, h2⟩ := h
    subst h2
    simp [bodyEventsAux]
  | (k1, v1) :: kv2 :: rest, k, v, h => by
    rcases List.mem_cons.mp h with h' | h'
    · simp only [Prod.mk.injEq] at h'
      obtain ⟨h1, h2⟩ := h'
      subst h2
      simp [bodyEventsAux]
    · have := mem_bodyEventsAux (kv2 :: rest) k v h'
      simp only [bodyEventsAux, List.mem_append, List.mem_cons]
      right
      exact this

theorem transform_selfloop_step (dId n0 f : Nat) (c0 : Composite) (s : WState)
    (hheap : heapFind s.heap dId = some c0)
    (hassoc : assocNat s.backrefs dId = some n0)
    (hdup : n0 ∈ s.duplicates) :
    transformV (f + 1) (WVal.comp dId) s = some ((phase1 c0 s).1, none) := by
  simp only [transformV]
  unfold WriteDictionaryTransformer.transform
  simp only [hheap]
  have hbr' := phase1_backrefs_mono c0 s hassoc
  simp only [hbr']
  rw [if_pos (by rw [(phase1_frame c0 s).1]; exact hdup)]

theorem transformList_selfloop (dId n0 f : Nat) (c0 : Composite) :
    ∀ (q : List WVal) (s : WState),
      (∀ e ∈ q, e = WVal.comp dId) →
      heapFind s.heap dId = some c0 → wfHeap s →
      assocNat s.backrefs dId = some n0 → n0 ∈ s.duplicates →
      ∃ s', transformList (fun v' s'' => transformV (f + 1) v' s'') q s
          = some s'
        ∧ s'.output = s.output
        ∧ (∀ i c, heapFind s.heap i = some c → heapFind s'.heap i = some c)
  | [], s, _, _, _, _, _ => ⟨s, rfl, rfl, fun _ _ h => h⟩
  | e :: rest, s, hq, hheap, hwf, hassoc, hdup => by
    have he : e = WVal.comp dId := hq e (List.mem_cons_self _ _)
    subst he
    have hstep := transform_selfloop_step dId n0 f c0 s hheap hassoc hdup
    have hq' : ∀ e ∈ rest, e = WVal.comp dId :=
      fun e he => hq e (List.mem_cons_of_mem _ he)
    have hheap1 : heapFind (phase1 c0 s).1.heap dId = some c0 := by
      rw [phase1_heap c0 s hwf]
      exact heapFind_append_left hheap
    have hwf1 := phase1_wf c0 s hwf
    have hassoc1 := phase1_backrefs_mono c0 s hassoc
    have hdup1 : n0 ∈ (phase1 c0 s).1.duplicates := by
      rw [(phase1_frame c0 s).1]; exact hdup
    obtain ⟨s', hlist, hout, hframe⟩ := transformList_selfloop dId n0 f c0
      rest (phase1 c0 s).1 hq' hheap1 hwf1 hassoc1 hdup1
    refine ⟨s', ?_, ?_, ?_⟩
    · simp only [transformList, hstep]
      exact hlist
    · rw [hout, (phase1_frame c0 s).2.2.1]
    · intro i c hic
      refine hframe i c ?_
      rw [phase1_heap c0 s hwf]
      exact heapFind_append_left hic

end Writer


namespace Writer

open WriteDictionaryTransformer

theorem transformV_succ_comp (f dId : Nat) (s : WState) :
    transformV (f + 1) (WVal.comp dId) s =
      WriteDictionaryTransformer.transform
        (fun v' s' => transformV f v' s') dId s := rfl

/-- C6: a dictionary `D` with a self-referential entry `D[selfK] = D`
(and whose composite-valued entries all point back to `D` itself) is
written in bounded time — fuel 2 suffices — with exactly one
`N G obj`/`endobj` body for `D`'s freshly assigned object number `n0`,
and the self entry is emitted as the indirect reference `n0 0 R`; the
returned `out_value` maps `selfK` to that reference. -/
theorem claim_C6_self_cycle_write (es : List (Nat × WVal))
    (dId selfK n0 : Nat)
    (hmem : (selfK, WVal.comp dId) ∈ es)
    (hcl : ∀ kv ∈ es, ∀ cid, kv.2 = WVal.comp cid → cid = dId) :
    ∃ s' oid,
      transformV 2 (WVal.comp dId)
        { heap := [(dId, { kind := 0, entries := es })], freshId := dId + 1,
          backrefs := [], duplicates := [], locations := [], nextObj := n0,
          output := [] } = some (s', some oid)
      ∧ countBegin n0 s'.output = 1
      ∧ countEnd n0 s'.output = 1
      ∧ OutEvent.refOut n0 0 ∈ s'.output
      ∧ ∃ c', heapFind s'.heap oid = some c'
          ∧ (selfK, WVal.wref n0 0) ∈ c'.entries := by
  set c0 : Composite := { kind := 0, entries := es } with hc0def
  set s0 : WState :=
    { heap := [(dId, { kind := 0, entries := es })], freshId := dId + 1,
      backrefs := [], duplicates := [], locations := [], nextObj := n0,
      output := [] } with hs0def
  have hc0 : heapFind s0.heap dId = some c0 := by
    simp [hs0def, hc0def, heapFind, List.find?]
  have hwf0 : wfHeap s0 := by
    intro p hp
    simp only [hs0def] at hp
    simp at hp
    rw [hp]
    exact Nat.lt_succ_self dId
  have hqne : compChildren es ≠ [] := by
    intro hnil
    have hm := mem_compChildren_of_mem hmem
    rw [hnil] at hm
    exact List.not_mem_nil _ hm
  have hrcf := rewriteChildren_self_fresh dId es
    { s0 with heap := s0.heap ++ [(s0.freshId, { kind := 0, entries := [] })],
              freshId := s0.freshId + 1 }
    hcl rfl hqne
  have hbrs : (phase1 c0 s0).1.backrefs = [(dId, n0)] := hrcf.1
  have hassoc1 : assocNat (phase1 c0 s0).1.backrefs dId = some n0 := by
    rw [hbrs]
    simp [assocNat, List.find?]
  have hdup1 : n0 ∉ (phase1 c0 s0).1.duplicates := by
    rw [(phase1_frame c0 s0).1]
    simp [hs0def]
  have hloc1 : assocNat (phase1 c0 s0).1.locations n0 = none := by
    rw [(phase1_frame c0 s0).2.1]
    rfl
  have hself_out : (selfK, WVal.wref n0 0) ∈ (phase1 c0 s0).2.1 := by
    rw [phase1_entries c0 s0]
    refine List.mem_map.mpr ⟨(selfK, WVal.comp dId), hmem, ?_⟩
    simp [rewriteVal, hbrs, assocNat, List.find?]
  set sMid := emitSegment n0 (phase1 c0 s0).2.1 (phase1 c0 s0).1 with hsMid
  have hmid_eq := @emitSegment_eq_none n0 ((phase1 c0 s0).2.1) ((phase1 c0 s0).1) hloc1
  have hmid_out : sMid.output =
      [OutEvent.beginObj n0 0] ++ bodyEvents ((phase1 c0 s0).2.1)
        ++ [OutEvent.endObj n0 0] := by
    rw [hsMid, hmid_eq]
    show (phase1 c0 s0).1.output ++ _ ++ _ ++ _ = _
    rw [(phase1_frame c0 s0).2.2.1]
    simp [hs0def]
  have hmid_heapfind : heapFind sMid.heap dId = some c0 := by
    rw [hsMid, (emitSegment_frame _ _ _).1, phase1_heap c0 s0 hwf0]
    exact heapFind_append_left hc0
  have hmid_wf : wfHeap sMid := by
    intro p hp
    rw [hsMid, (emitSegment_frame _ _ _).1] at hp
    rw [hsMid, (emitSegment_frame _ _ _).2.1]
    exact phase1_wf c0 s0 hwf0 p hp
  have hmid_assoc : assocNat sMid.backrefs dId = some n0 := by
    rw [hsMid, (emitSegment_frame _ _ _).2.2.1]
    exact hassoc1
  have hmid_dup : n0 ∈ sMid.duplicates := by
    rw [hsMid, hmid_eq]
    exact List.mem_append_right _ (by simp)
  have hmid_find_out : heapFind sMid.heap s0.freshId =
      some { kind := 0, entries := (phase1 c0 s0).2.1 } := by
    rw [hsMid, (emitSegment_frame _ _ _).1, phase1_heap c0 s0 hwf0]
    exact heapFind_append_self (heapFind_none_of_ge hwf0 (Nat.le_refl _))
  have hqall : ∀ e ∈ (phase1 c0 s0).2.2, e = WVal.comp dId := by
    rw [phase1_queue c0 s0]
    exact compChildren_self hcl
  obtain ⟨s8, hlist, hout8, hframe8⟩ := transformList_selfloop dId n0 0 c0
    (phase1 c0 s0).2.2 sMid hqall hmid_heapfind hmid_wf hmid_assoc hmid_dup
  have hlist' : transformList (fun v' s'' => transformV 1 v' s'')
      (phase1 c0 s0).2.2 sMid = some s8 := hlist
  have htrans : transformV 2 (WVal.comp dId) s0 = some (s8, some s0.freshId) := by
    rw [show (2 : Nat) = 1 + 1 from rfl, transformV_succ_comp]
    unfold WriteDictionaryTransformer.transform
    simp only [hc0]
    simp only [hassoc1]
    rw [if_neg hdup1]
    rw [← hsMid, hlist']
  refine ⟨s8, s0.freshId, htrans, ?_, ?_, ?_, ?_⟩
  · rw [hout8, hmid_out]
    simp only [countBegin_append, countBegin_bodyEvents]
    simp [countBegin, List.countP_cons, isBeginFor]
  · rw [hout8, hmid_out]
    simp only [countEnd_append, countEnd_bodyEvents]
    simp [countEnd, List.countP_cons, isEndFor]
  · rw [hout8, hmid_out]
    have hb : inlineEvent (WVal.wref n0 0) ∈ bodyEventsAux ((phase1 c0 s0).2.1) :=
      mem_bodyEventsAux _ selfK _ hself_out
    have hb' : OutEvent.refOut n0 0 ∈ bodyEvents ((phase1 c0 s0).2.1) := by
      simp only [bodyEvents, List.mem_append, List.mem_cons]
      left; right
      exact hb
    refine List.mem_append_left _ (List.mem_append_right _ hb')
  · exact ⟨{ kind := 0, entries := (phase1 c0 s0).2.1 },
      hframe8 _ _ hmid_find_out, hself_out⟩

/-- Witness for `claim_C6_self_cycle_write` at a concrete self-referential
dictionary. -/
theorem claim_C6_witness :
    ∃ s' oid,
      transformV 2 (WVal.comp 0)
        { heap := [(0, { kind := 0, entries := [(7, WVal.comp 0)] })],
          freshId := 1, backrefs := [], duplicates := [], locations := [],
          nextObj := 3, output := [] } = some (s', some oid)
      ∧ countBegin 3 s'.output = 1
      ∧ countEnd 3 s'.output = 1
      ∧ OutEvent.refOut 3 0 ∈ s'.output
      ∧ ∃ c', heapFind s'.heap oid = some c'
          ∧ (7, WVal.wref 3 0) ∈ c'.entries :=
  claim_C6_self_cycle_write [(7, WVal.comp 0)] 0 7 3 (by simp)
    (by
      intro kv hkv cid hc
      simp at hkv
      rw [hkv] at hc
      simpa using hc.symm)

end Writer

end Borb

